import Mathlib

/-!
# Mobile controls: the key-emulation core of `mobile-controls_Version2.js`

A shallow embedding of the input-translation core of the script: the
pressed-key set with its edge-triggered `pressKeyOnce` / `releaseKeyOnce`,
the joystick handlers `onJoyStart` / `onJoyMove` / `onJoyEnd` with
`moveKnobTo`, the melee button and the weapon buttons with their deferred
release.

Modelling conventions.

* JavaScript numbers are exact rationals (`ℚ`); `NaN` and the infinities are
  not represented. `Math.sqrt` is a field of the environment `Env`; it only
  feeds the knob position.
* The closure variables of the script (`pressedKeys`, `joyRect`, `centerX`,
  `centerY`, `maxRadius`, `activeTouchId`, the knob style) are the fields of
  `State`, passed explicitly.
* Each call of `dispatchKey` that reaches `dispatchEvent` appends one entry to
  `State.log`: the entry stands for the one `KeyboardEvent` object, which the
  script hands to `document` and to `window`. `KeyboardEvent` is taken to be
  constructible, so the `catch` branch of `dispatchKey` is not entered.
* `setTimeout` is a queue of pending timers ordered by due time; a timer runs
  at its due time, or at the current time when that is later. Time is a
  natural number of milliseconds.
* The fire button and the skin button dispatch pointer events and open a
  prompt; they never call `pressKeyOnce` or `releaseKeyOnce` and are not part
  of this model.
-/

namespace MobileControls

/-! ## Data model -/

/-- A physical key label, the `key` of a `KeyboardEvent`. -/
abbrev Key := String

/-- The key mapping table `KEYMAP`. -/
structure KeyMap where
  up : Key
  down : Key
  left : Key
  right : Key
  melee : Key
  weapon1 : Key
  weapon2 : Key
  weapon3 : Key
deriving DecidableEq, Repr

/-- The default key mapping of the script. -/
def KEYMAP : KeyMap :=
  { up := "w", down := "s", left := "a", right := "d",
    melee := "f", weapon1 := "1", weapon2 := "2", weapon3 := "3" }

/-- The second argument of `dispatchKey`: `'down'` or `'up'`. -/
inductive EvType where
  | down
  | up
deriving DecidableEq, Repr

/-- One emitted keyboard event: when it was dispatched, its key label and
whether it is a `keydown` or a `keyup`. -/
structure KeyEvent where
  time : Nat
  key : Key
  type : EvType
deriving DecidableEq, Repr

/-- The value of `activeTouchId` when it is not `null`: a touch identifier or
the string `'mouse'`. -/
inductive Owner where
  | touch (identifier : Int)
  | mouse
deriving DecidableEq, Repr

/-- The result of `joy.getBoundingClientRect()`. -/
structure Rect where
  left : ℚ
  top : ℚ
  width : ℚ
  height : ℚ
deriving DecidableEq

/-- A pending `setTimeout(() => releaseKeyOnce(nKey), 120)`. -/
structure Timer where
  due : Nat
  key : Key
deriving DecidableEq, Repr

/-- What the handlers read from the platform and the configuration. -/
structure Env where
  km : KeyMap
  sqrt : ℚ → ℚ

/-- The mutable state of the script. `knobLeft` and `knobTop` are the
percentages written to `knob.style.left` and `knob.style.top` (`none` while
the script has not written them). -/
structure State where
  pressedKeys : Finset Key
  log : List KeyEvent
  joyRect : Rect
  centerX : ℚ
  centerY : ℚ
  maxRadius : ℚ
  activeTouchId : Option Owner
  knobLeft : Option ℚ
  knobTop : Option ℚ
  now : Nat
  timers : List Timer

/-- One contact as the handlers read it: a `Touch`, or the event object itself
when it is used in place of a touch (`identifier` is then `undefined`). -/
structure Contact where
  identifier : Option Int
  clientX : ℚ
  clientY : ℚ
deriving DecidableEq

/-- An event delivered to a joystick handler. `changedTouches` is `none` on a
mouse event; `self` holds the fields the handler reads from the event object
itself. -/
structure JoyEvent where
  changedTouches : Option (List Contact)
  self : Contact

/-! ## Key press tracker -/

/-- `dispatchKey(key, type)`. -/
def dispatchKey (key : Key) (type : EvType) (s : State) : State :=
  { s with log := s.log ++ [{ time := s.now, key := key, type := type }] }

/-- `pressKeyOnce(key)`. -/
def pressKeyOnce (key : Key) (s : State) : State :=
  if key ∈ s.pressedKeys then s
  else dispatchKey key EvType.down { s with pressedKeys := insert key s.pressedKeys }

/-- `releaseKeyOnce(key)`. -/
def releaseKeyOnce (key : Key) (s : State) : State :=
  if key ∈ s.pressedKeys then
    dispatchKey key EvType.up { s with pressedKeys := s.pressedKeys.erase key }
  else s

/-- A call of one of the two tracker functions. -/
inductive KeyOp where
  | press (key : Key)
  | release (key : Key)
deriving DecidableEq, Repr

/-- Run one tracker call. -/
def KeyOp.run : KeyOp → State → State
  | KeyOp.press k, s => pressKeyOnce k s
  | KeyOp.release k, s => releaseKeyOnce k s

/-- The key a tracker call is about. -/
def KeyOp.key : KeyOp → Key
  | KeyOp.press k => k
  | KeyOp.release k => k

/-- Run a straight-line sequence of tracker calls, first call first. -/
def runOps : List KeyOp → State → State
  | [], s => s
  | op :: ops, s => runOps ops (op.run s)

/-- The states after each call of a straight-line sequence of tracker calls. -/
def opStates : List KeyOp → State → List State
  | [], _ => []
  | op :: ops, s => op.run s :: opStates ops (op.run s)

/-! ## Joystick -/

/-- `updateBounds()`, with the rectangle the DOM reports at that moment. -/
def updateBounds (rect : Rect) (s : State) : State :=
  { s with
    joyRect := rect
    centerX := rect.left + rect.width / 2
    centerY := rect.top + rect.height / 2
    maxRadius := min rect.width rect.height / 2 }

/-- The horizontal block of `moveKnobTo`: the tracker calls it makes. -/
def horizontalOps (km : KeyMap) (dx deadZone : ℚ) : List KeyOp :=
  if |dx| > deadZone then
    if dx < 0 then [KeyOp.press km.left, KeyOp.release km.right]
    else [KeyOp.press km.right, KeyOp.release km.left]
  else [KeyOp.release km.left, KeyOp.release km.right]

/-- The vertical block of `moveKnobTo`: the tracker calls it makes. -/
def verticalOps (km : KeyMap) (dy deadZone : ℚ) : List KeyOp :=
  if |dy| > deadZone then
    if dy < 0 then [KeyOp.press km.up, KeyOp.release km.down]
    else [KeyOp.press km.down, KeyOp.release km.up]
  else [KeyOp.release km.up, KeyOp.release km.down]

/-- The tracker calls of `moveKnobTo(clientX, clientY)`, in source order. -/
def moveKnobOps (km : KeyMap) (clientX clientY : ℚ) (s : State) : List KeyOp :=
  let dx := clientX - s.centerX
  let dy := clientY - s.centerY
  let deadZone := (25 / 100 : ℚ) * s.maxRadius
  horizontalOps km dx deadZone ++ verticalOps km dy deadZone

/-- The first half of `moveKnobTo`: the knob position written to the style. -/
def placeKnob (env : Env) (clientX clientY : ℚ) (s : State) : State :=
  let dx := clientX - s.centerX
  let dy := clientY - s.centerY
  let dist := env.sqrt (dx * dx + dy * dy)
  let nx := dx / (if dist = 0 then 1 else dist)
  let ny := dy / (if dist = 0 then 1 else dist)
  let limited := min dist s.maxRadius
  let posX := s.centerX + nx * limited
  let posY := s.centerY + ny * limited
  let leftPct := ((posX - s.joyRect.left) / s.joyRect.width) * 100
  let topPct := ((posY - s.joyRect.top) / s.joyRect.height) * 100
  { s with knobLeft := some leftPct, knobTop := some topPct }

/-- `moveKnobTo(clientX, clientY)`. -/
def moveKnobTo (env : Env) (clientX clientY : ℚ) (s : State) : State :=
  runOps (moveKnobOps env.km clientX clientY s) (placeKnob env clientX clientY s)

/-- The states `moveKnobTo` passes through, one after each tracker call. -/
def moveKnobStates (env : Env) (clientX clientY : ℚ) (s : State) : List State :=
  opStates (moveKnobOps env.km clientX clientY s) (placeKnob env clientX clientY s)

/-- `(e.changedTouches && e.changedTouches[0]) || e`. -/
def firstContact (e : JoyEvent) : Contact :=
  match e.changedTouches with
  | some (c :: _) => c
  | _ => e.self

/-- `e.changedTouches || [e]`. -/
def contacts (e : JoyEvent) : List Contact :=
  match e.changedTouches with
  | some l => l
  | none => [e.self]

/-- `touch.identifier !== undefined ? touch.identifier : 'mouse'`. -/
def ownerOf (c : Contact) : Owner :=
  match c.identifier with
  | some i => Owner.touch i
  | none => Owner.mouse

/-- The loop condition of `onJoyMove` and `onJoyEnd`:
`(t.identifier !== undefined && t.identifier === activeTouchId) || activeTouchId === 'mouse'`. -/
def ownsContact (active : Option Owner) (t : Contact) : Bool :=
  (match t.identifier with
    | some i => decide (active = some (Owner.touch i))
    | none => false)
  || decide (active = some Owner.mouse)

/-- `onJoyStart(e)`; `rect` is what `getBoundingClientRect` returns in
`updateBounds`. -/
def onJoyStart (env : Env) (rect : Rect) (e : JoyEvent) (s : State) : State :=
  let s1 := updateBounds rect s
  let touch := firstContact e
  let s2 := { s1 with activeTouchId := some (ownerOf touch) }
  moveKnobTo env touch.clientX touch.clientY s2

/-- `onJoyMove(e)`. -/
def onJoyMove (env : Env) (e : JoyEvent) (s : State) : State :=
  if s.activeTouchId = none then s
  else
    match (contacts e).find? (ownsContact s.activeTouchId) with
    | some t => moveKnobTo env t.clientX t.clientY s
    | none => s

/-- The tracker calls of the reset in `onJoyEnd`, in source order. -/
def joyEndOps (km : KeyMap) : List KeyOp :=
  [KeyOp.release km.left, KeyOp.release km.right, KeyOp.release km.up, KeyOp.release km.down]

/-- `onJoyEnd(e)`. -/
def onJoyEnd (env : Env) (e : JoyEvent) (s : State) : State :=
  match (contacts e).find? (ownsContact s.activeTouchId) with
  | some _ =>
    let s1 := { s with knobLeft := some 50, knobTop := some 50 }
    let s2 := runOps (joyEndOps env.km) s1
    { s2 with activeTouchId := none }
  | none => s

/-! ## Buttons and timers -/

/-- Put a timer into the queue, after the pending timers that are due no
later than it. -/
def insertTimer (tm : Timer) : List Timer → List Timer
  | [] => [tm]
  | x :: xs => if x.due ≤ tm.due then x :: insertTimer tm xs else tm :: x :: xs

/-- `setTimeout(() => releaseKeyOnce(nKey), delay)`. -/
def setTimeout (nKey : Key) (delay : Nat) (s : State) : State :=
  { s with timers := insertTimer { due := s.now + delay, key := nKey } s.timers }

/-- `weaponPress(nKey)`. -/
def weaponPress (nKey : Key) (s : State) : State :=
  setTimeout nKey 120 (pressKeyOnce nKey s)

/-- Run the callback of one timer that has been taken out of the queue. -/
def fireTimer (tm : Timer) (rest : List Timer) (s : State) : State :=
  releaseKeyOnce tm.key { s with now := max s.now tm.due, timers := rest }

/-- Run, in queue order, the pending timers that are due at or before `t`. -/
def fireDue (t : Nat) : List Timer → State → State
  | [], s => s
  | tm :: rest, s => if tm.due ≤ t then fireDue t rest (fireTimer tm rest s) else s

/-- Let time pass until `t`: the timers due by then run, then the clock reads
`t` (it never goes back). -/
def advanceTo (t : Nat) (s : State) : State :=
  let s1 := fireDue t s.timers s
  { s1 with now := max s1.now t }

/-- The melee button, contact start: `pressKeyOnce(KEYMAP.melee)`. -/
def meleeStart (env : Env) (s : State) : State :=
  pressKeyOnce env.km.melee s

/-- The melee button, contact end: `releaseKeyOnce(KEYMAP.melee)`. -/
def meleeEnd (env : Env) (s : State) : State :=
  releaseKeyOnce env.km.melee s

/-- Taps on one weapon button at the given times, each preceded by the timers
that are due by then. -/
def tapsAt (nKey : Key) : List Nat → State → State
  | [], s => s
  | t :: ts, s => tapsAt nKey ts (weaponPress nKey (advanceTo t s))

/-! ## Whole-controller runs -/

/-- What can happen to the controller. -/
inductive Input where
  | resize (rect : Rect)
  | joyStart (rect : Rect) (e : JoyEvent)
  | joyMove (e : JoyEvent)
  | joyEnd (e : JoyEvent)
  | meleeStart
  | meleeEnd
  | weapon1
  | weapon2
  | weapon3
  | wait (dt : Nat)

/-- The handler that runs for an input. -/
def step (env : Env) : Input → State → State
  | Input.resize rect, s => updateBounds rect s
  | Input.joyStart rect e, s => onJoyStart env rect e s
  | Input.joyMove e, s => onJoyMove env e s
  | Input.joyEnd e, s => onJoyEnd env e s
  | Input.meleeStart, s => meleeStart env s
  | Input.meleeEnd, s => meleeEnd env s
  | Input.weapon1, s => weaponPress env.km.weapon1 s
  | Input.weapon2, s => weaponPress env.km.weapon2 s
  | Input.weapon3, s => weaponPress env.km.weapon3 s
  | Input.wait dt, s => advanceTo (s.now + dt) s

/-- Run the handlers of a sequence of inputs, first input first. -/
def run (env : Env) : List Input → State → State
  | [], s => s
  | i :: is, s => run env is (step env i s)

/-- The state once the script has loaded: no key held, no owner, no timer, the
bounds read once by the initial `updateBounds()`. -/
def init (rect : Rect) : State :=
  updateBounds rect
    { pressedKeys := ∅, log := [], joyRect := rect, centerX := 0, centerY := 0,
      maxRadius := 0, activeTouchId := none, knobLeft := none, knobTop := none,
      now := 0, timers := [] }

/-! ## Reading the event log -/

/-- The types of the events of the log that carry the key `k`, in order. -/
def typesFor (k : Key) (log : List KeyEvent) : List EvType :=
  (log.filter (fun ev => ev.key = k)).map (fun ev => ev.type)

/-- Whether a list of event types alternates strictly, starting with
`expected`. -/
def alternates : EvType → List EvType → Bool
  | _, [] => true
  | EvType.down, EvType.down :: r => alternates EvType.up r
  | EvType.up, EvType.up :: r => alternates EvType.down r
  | EvType.down, EvType.up :: _ => false
  | EvType.up, EvType.down :: _ => false

/-- How many events of type `ty` the log holds for the key `k`. -/
def countFor (k : Key) (ty : EvType) (log : List KeyEvent) : Nat :=
  (log.filter (fun ev => ev.key = k ∧ ev.type = ty)).length

/-- What the log and the pressed-key set of a state say together about one
key: its events alternate from `down`, the next one due is an `up` exactly
when the key is held, and the held key accounts for the one extra `down`. -/
def KeyInv (k : Key) (s : State) : Prop :=
  alternates EvType.down
      (typesFor k s.log ++ [if k ∈ s.pressedKeys then EvType.up else EvType.down]) = true ∧
    countFor k EvType.down s.log =
      countFor k EvType.up s.log + (if k ∈ s.pressedKeys then 1 else 0)

/-- The keys of `ks` are untouched between `s` and `t`: each is held in `t`
exactly when it is held in `s`, and the events emitted in between carry none
of them. -/
def KeepsKeys (ks : List Key) (s t : State) : Prop :=
  (∀ k ∈ ks, (k ∈ t.pressedKeys ↔ k ∈ s.pressedKeys)) ∧
    ∃ evs : List KeyEvent, t.log = s.log ++ evs ∧ ∀ ev ∈ evs, ev.key ∉ ks

/-- No axis has both of its keys in the set `P`. -/
def AxisExclusive (km : KeyMap) (P : Finset Key) : Prop :=
  ¬ (km.left ∈ P ∧ km.right ∈ P) ∧ ¬ (km.up ∈ P ∧ km.down ∈ P)

/-- The state while the weapon key `k` is held by a first tap at `t1`: the
set is `P0` with `k`, the log is `L`, the release scheduled by the first tap
heads the timer queue, and every other pending timer is a later release of
`k` due by `T`. -/
def HoldInv (k : Key) (t1 T : Nat) (P0 : Finset Key) (L : List KeyEvent) (s : State) : Prop :=
  s.pressedKeys = insert k P0 ∧ s.log = L ∧ s.now < t1 + 120 ∧
    ∃ rest : List Timer, s.timers = { due := t1 + 120, key := k } :: rest ∧
      ∀ tm ∈ rest, tm.key = k ∧ t1 + 120 ≤ tm.due ∧ tm.due ≤ T

/-! ## Sample data for the concrete checks -/

/-- The default key mapping with a `sqrt` that is exact on the squares the
concrete checks meet (0, 625 and 2500). -/
def sampleEnv : Env :=
  { km := KEYMAP, sqrt := fun q => if q = 2500 then 50 else if q = 625 then 25 else 0 }

/-- A joystick base of 100 by 100 at the origin: centre (50, 50), radius 50,
dead zone 12.5. -/
def sampleRect : Rect := { left := 0, top := 0, width := 100, height := 100 }

/-- A touch event with one changed touch. -/
def touchEvent (identifier : Int) (x y : ℚ) : JoyEvent :=
  { changedTouches := some [{ identifier := some identifier, clientX := x, clientY := y }],
    self := { identifier := none, clientX := 0, clientY := 0 } }

/-- A mouse event. -/
def mouseEvent (x y : ℚ) : JoyEvent :=
  { changedTouches := none, self := { identifier := none, clientX := x, clientY := y } }

/-! ## Basic facts about the tracker -/

@[simp] theorem dispatchKey_pressedKeys (k : Key) (ty : EvType) (s : State) :
    (dispatchKey k ty s).pressedKeys = s.pressedKeys := rfl

@[simp] theorem dispatchKey_log (k : Key) (ty : EvType) (s : State) :
    (dispatchKey k ty s).log = s.log ++ [{ time := s.now, key := k, type := ty }] := rfl

@[simp] theorem pressKeyOnce_pressedKeys (k : Key) (s : State) :
    (pressKeyOnce k s).pressedKeys = insert k s.pressedKeys := by
  unfold pressKeyOnce
  split_ifs with h
  · exact (Finset.insert_eq_of_mem h).symm
  · rfl

@[simp] theorem releaseKeyOnce_pressedKeys (k : Key) (s : State) :
    (releaseKeyOnce k s).pressedKeys = s.pressedKeys.erase k := by
  unfold releaseKeyOnce
  split_ifs with h
  · rfl
  · exact (Finset.erase_eq_of_not_mem h).symm

theorem pressKeyOnce_log (k : Key) (s : State) :
    (pressKeyOnce k s).log =
      if k ∈ s.pressedKeys then s.log
      else s.log ++ [{ time := s.now, key := k, type := EvType.down }] := by
  unfold pressKeyOnce
  split_ifs <;> rfl

theorem releaseKeyOnce_log (k : Key) (s : State) :
    (releaseKeyOnce k s).log =
      if k ∈ s.pressedKeys then s.log ++ [{ time := s.now, key := k, type := EvType.up }]
      else s.log := by
  unfold releaseKeyOnce
  split_ifs <;> rfl

@[simp] theorem pressKeyOnce_activeTouchId (k : Key) (s : State) :
    (pressKeyOnce k s).activeTouchId = s.activeTouchId := by
  unfold pressKeyOnce
  split_ifs <;> rfl

@[simp] theorem releaseKeyOnce_activeTouchId (k : Key) (s : State) :
    (releaseKeyOnce k s).activeTouchId = s.activeTouchId := by
  unfold releaseKeyOnce
  split_ifs <;> rfl

@[simp] theorem pressKeyOnce_now (k : Key) (s : State) :
    (pressKeyOnce k s).now = s.now := by
  unfold pressKeyOnce
  split_ifs <;> rfl

@[simp] theorem releaseKeyOnce_now (k : Key) (s : State) :
    (releaseKeyOnce k s).now = s.now := by
  unfold releaseKeyOnce
  split_ifs <;> rfl

@[simp] theorem pressKeyOnce_timers (k : Key) (s : State) :
    (pressKeyOnce k s).timers = s.timers := by
  unfold pressKeyOnce
  split_ifs <;> rfl

@[simp] theorem releaseKeyOnce_timers (k : Key) (s : State) :
    (releaseKeyOnce k s).timers = s.timers := by
  unfold releaseKeyOnce
  split_ifs <;> rfl

@[simp] theorem pressKeyOnce_maxRadius (k : Key) (s : State) :
    (pressKeyOnce k s).maxRadius = s.maxRadius := by
  unfold pressKeyOnce
  split_ifs <;> rfl

@[simp] theorem releaseKeyOnce_maxRadius (k : Key) (s : State) :
    (releaseKeyOnce k s).maxRadius = s.maxRadius := by
  unfold releaseKeyOnce
  split_ifs <;> rfl

/-- Pressing a key that is held changes nothing. -/
theorem pressKeyOnce_of_mem {k : Key} {s : State} (h : k ∈ s.pressedKeys) :
    pressKeyOnce k s = s := by
  unfold pressKeyOnce
  rw [if_pos h]

/-- Releasing a key that is not held changes nothing. -/
theorem releaseKeyOnce_of_not_mem {k : Key} {s : State} (h : k ∉ s.pressedKeys) :
    releaseKeyOnce k s = s := by
  unfold releaseKeyOnce
  rw [if_neg h]

/-! ## Alternation of the events of one key -/

theorem alternates_append_flip (l : List EvType) (e : EvType) :
    (alternates e (l ++ [EvType.down]) = true →
        alternates e (l ++ [EvType.down, EvType.up]) = true) ∧
    (alternates e (l ++ [EvType.up]) = true →
        alternates e (l ++ [EvType.up, EvType.down]) = true) := by
  induction l generalizing e with
  | nil => cases e <;> simp [alternates]
  | cons x r ih =>
    cases e <;> cases x <;> simp [alternates]
    · exact ih EvType.up
    · exact ih EvType.down

theorem alternates_of_append (l : List EvType) (x : EvType) (e : EvType)
    (h : alternates e (l ++ [x]) = true) : alternates e l = true := by
  induction l generalizing e with
  | nil => cases e <;> simp [alternates]
  | cons y r ih =>
    cases e <;> cases y <;> simp [alternates] at h ⊢
    · exact ih _ h
    · exact ih _ h

@[simp] theorem typesFor_append (k : Key) (l₁ l₂ : List KeyEvent) :
    typesFor k (l₁ ++ l₂) = typesFor k l₁ ++ typesFor k l₂ := by
  simp [typesFor]

@[simp] theorem countFor_append (k : Key) (ty : EvType) (l₁ l₂ : List KeyEvent) :
    countFor k ty (l₁ ++ l₂) = countFor k ty l₁ + countFor k ty l₂ := by
  simp [countFor]

theorem KeyInv_press (k j : Key) (s : State) (h : KeyInv k s) :
    KeyInv k (pressKeyOnce j s) := by
  by_cases hj : j ∈ s.pressedKeys
  · rw [pressKeyOnce_of_mem hj]; exact h
  · obtain ⟨h1, h2⟩ := h
    by_cases hk : j = k
    · subst hk
      rw [if_neg hj] at h1 h2
      refine ⟨?_, ?_⟩
      · simpa [pressKeyOnce_log, hj, typesFor] using
          (alternates_append_flip (typesFor j s.log) EvType.down).1 h1
      · simp [pressKeyOnce_log, hj, countFor] at h2 ⊢
        omega
    · have hk2 : ¬ k = j := fun h => hk h.symm
      refine ⟨?_, ?_⟩
      · simpa [pressKeyOnce_log, hj, typesFor, hk, hk2, Finset.mem_insert] using h1
      · simpa [pressKeyOnce_log, hj, countFor, hk, hk2, Finset.mem_insert] using h2

theorem KeyInv_release (k j : Key) (s : State) (h : KeyInv k s) :
    KeyInv k (releaseKeyOnce j s) := by
  by_cases hj : j ∈ s.pressedKeys
  · obtain ⟨h1, h2⟩ := h
    by_cases hk : j = k
    · subst hk
      rw [if_pos hj] at h1 h2
      refine ⟨?_, ?_⟩
      · simpa [releaseKeyOnce_log, hj, typesFor] using
          (alternates_append_flip (typesFor j s.log) EvType.down).2 h1
      · simp [releaseKeyOnce_log, hj, countFor] at h2 ⊢
        omega
    · have hk2 : ¬ k = j := fun h => hk h.symm
      refine ⟨?_, ?_⟩
      · simpa [releaseKeyOnce_log, hj, typesFor, hk, hk2, Finset.mem_erase] using h1
      · simpa [releaseKeyOnce_log, hj, countFor, hk, hk2, Finset.mem_erase] using h2
  · rw [releaseKeyOnce_of_not_mem hj]; exact h

theorem KeyInv_runOps (k : Key) (ops : List KeyOp) (s : State) (h : KeyInv k s) :
    KeyInv k (runOps ops s) := by
  induction ops generalizing s with
  | nil => exact h
  | cons op ops ih =>
    cases op with
    | press j => exact ih _ (KeyInv_press k j s h)
    | release j => exact ih _ (KeyInv_release k j s h)

/-! ## Straight-line sequences of tracker calls -/

theorem runOps_append (ops₁ ops₂ : List KeyOp) (s : State) :
    runOps (ops₁ ++ ops₂) s = runOps ops₂ (runOps ops₁ s) := by
  induction ops₁ generalizing s with
  | nil => rfl
  | cons op ops ih => exact ih _

@[simp] theorem runOps_activeTouchId (ops : List KeyOp) (s : State) :
    (runOps ops s).activeTouchId = s.activeTouchId := by
  induction ops generalizing s with
  | nil => rfl
  | cons op ops ih => cases op <;> simp [runOps, KeyOp.run, ih]

@[simp] theorem runOps_now (ops : List KeyOp) (s : State) :
    (runOps ops s).now = s.now := by
  induction ops generalizing s with
  | nil => rfl
  | cons op ops ih => cases op <;> simp [runOps, KeyOp.run, ih]

@[simp] theorem runOps_timers (ops : List KeyOp) (s : State) :
    (runOps ops s).timers = s.timers := by
  induction ops generalizing s with
  | nil => rfl
  | cons op ops ih => cases op <;> simp [runOps, KeyOp.run, ih]

/-- A key that no call of the sequence is about is held afterwards exactly
when it was held before. -/
theorem runOps_mem_of_not_key (ops : List KeyOp) (s : State) (k : Key)
    (h : ∀ op ∈ ops, op.key ≠ k) :
    k ∈ (runOps ops s).pressedKeys ↔ k ∈ s.pressedKeys := by
  induction ops generalizing s with
  | nil => rfl
  | cons op ops ih =>
    have hop : op.key ≠ k := h op (List.mem_cons_self _ _)
    have hk : ¬ k = op.key := fun e => hop e.symm
    rw [runOps, ih _ (fun o ho => h o (List.mem_cons_of_mem _ ho))]
    cases op <;> simp [KeyOp.run, KeyOp.key, Finset.mem_insert, Finset.mem_erase] at hk ⊢ <;>
      simp [hk]

/-- The events a sequence of tracker calls emits carry only keys the calls
are about. -/
theorem runOps_log (ops : List KeyOp) (s : State) :
    ∃ evs : List KeyEvent, (runOps ops s).log = s.log ++ evs ∧
      ∀ ev ∈ evs, ∃ op ∈ ops, op.key = ev.key := by
  induction ops generalizing s with
  | nil => exact ⟨[], by simp [runOps], by simp⟩
  | cons op ops ih =>
    obtain ⟨evs, h1, h2⟩ := ih (op.run s)
    have hstep : ∃ e1 : List KeyEvent, (op.run s).log = s.log ++ e1 ∧
        ∀ ev ∈ e1, ev.key = op.key := by
      cases op with
      | press j =>
        by_cases hj : j ∈ s.pressedKeys
        · exact ⟨[], by simp [KeyOp.run, pressKeyOnce_log, hj], by simp⟩
        · exact ⟨[{ time := s.now, key := j, type := EvType.down }],
            by simp only [KeyOp.run, pressKeyOnce_log, if_neg hj], by simp [KeyOp.key]⟩
      | release j =>
        by_cases hj : j ∈ s.pressedKeys
        · exact ⟨[{ time := s.now, key := j, type := EvType.up }],
            by simp only [KeyOp.run, releaseKeyOnce_log, if_pos hj], by simp [KeyOp.key]⟩
        · exact ⟨[], by simp [KeyOp.run, releaseKeyOnce_log, hj], by simp⟩
    obtain ⟨e1, h3, h4⟩ := hstep
    refine ⟨e1 ++ evs, by rw [runOps, h1, h3, List.append_assoc], ?_⟩
    intro ev hev
    rcases List.mem_append.1 hev with h | h
    · exact ⟨op, List.mem_cons_self _ _, (h4 ev h).symm⟩
    · obtain ⟨o, ho, hk⟩ := h2 ev h
      exact ⟨o, List.mem_cons_of_mem _ ho, hk⟩

/-- A sequence of tracker calls, none about a key of `ks`, keeps `ks`. -/
theorem KeepsKeys_runOps (ks : List Key) (ops : List KeyOp) (s : State)
    (h : ∀ op ∈ ops, op.key ∉ ks) : KeepsKeys ks s (runOps ops s) := by
  refine ⟨fun k hk => runOps_mem_of_not_key ops s k ?_, ?_⟩
  · intro op hop e
    exact h op hop (e ▸ hk)
  · obtain ⟨evs, h1, h2⟩ := runOps_log ops s
    refine ⟨evs, h1, fun ev hev hin => ?_⟩
    obtain ⟨op, hop, hk⟩ := h2 ev hev
    exact h op hop (hk ▸ hin)

/-! ## The direction decision of `moveKnobTo` -/

@[simp] theorem placeKnob_pressedKeys (env : Env) (x y : ℚ) (s : State) :
    (placeKnob env x y s).pressedKeys = s.pressedKeys := rfl

@[simp] theorem placeKnob_log (env : Env) (x y : ℚ) (s : State) :
    (placeKnob env x y s).log = s.log := rfl

@[simp] theorem placeKnob_activeTouchId (env : Env) (x y : ℚ) (s : State) :
    (placeKnob env x y s).activeTouchId = s.activeTouchId := rfl

/-- After the horizontal block the two horizontal keys reflect the side of
`dx`, whatever was held before. -/
theorem horizontalOps_mem (km : KeyMap) (dx dz : ℚ) (s : State)
    (hne : km.left ≠ km.right) (hdz : 0 ≤ dz) :
    (km.left ∈ (runOps (horizontalOps km dx dz) s).pressedKeys ↔ dx < -dz) ∧
      (km.right ∈ (runOps (horizontalOps km dx dz) s).pressedKeys ↔ dx > dz) := by
  have hne2 : km.right ≠ km.left := fun h => hne h.symm
  unfold horizontalOps
  split_ifs with h1 h2
  · have : dx < -dz := by rcases abs_cases dx with ⟨ha, _⟩ | ⟨ha, _⟩ <;> linarith
    simp [runOps, KeyOp.run, Finset.mem_insert, Finset.mem_erase, hne, hne2, this]
    linarith
  · have : dx > dz := by rcases abs_cases dx with ⟨ha, _⟩ | ⟨ha, _⟩ <;> linarith
    simp [runOps, KeyOp.run, Finset.mem_insert, Finset.mem_erase, hne, hne2, this]
    linarith
  · have hle : |dx| ≤ dz := not_lt.1 h1
    have := abs_le.1 hle
    simp [runOps, KeyOp.run, Finset.mem_insert, Finset.mem_erase, hne, hne2]
    exact ⟨this.1, this.2⟩

/-- After the vertical block the two vertical keys reflect the side of `dy`,
whatever was held before. -/
theorem verticalOps_mem (km : KeyMap) (dy dz : ℚ) (s : State)
    (hne : km.up ≠ km.down) (hdz : 0 ≤ dz) :
    (km.up ∈ (runOps (verticalOps km dy dz) s).pressedKeys ↔ dy < -dz) ∧
      (km.down ∈ (runOps (verticalOps km dy dz) s).pressedKeys ↔ dy > dz) := by
  have hne2 : km.down ≠ km.up := fun h => hne h.symm
  unfold verticalOps
  split_ifs with h1 h2
  · have : dy < -dz := by rcases abs_cases dy with ⟨ha, _⟩ | ⟨ha, _⟩ <;> linarith
    simp [runOps, KeyOp.run, Finset.mem_insert, Finset.mem_erase, hne, hne2, this]
    linarith
  · have : dy > dz := by rcases abs_cases dy with ⟨ha, _⟩ | ⟨ha, _⟩ <;> linarith
    simp [runOps, KeyOp.run, Finset.mem_insert, Finset.mem_erase, hne, hne2, this]
    linarith
  · have hle : |dy| ≤ dz := not_lt.1 h1
    have := abs_le.1 hle
    simp [runOps, KeyOp.run, Finset.mem_insert, Finset.mem_erase, hne, hne2]
    exact ⟨this.1, this.2⟩

theorem horizontalOps_keys (km : KeyMap) (dx dz : ℚ) :
    ∀ op ∈ horizontalOps km dx dz, op.key = km.left ∨ op.key = km.right := by
  unfold horizontalOps
  split_ifs <;> simp [KeyOp.key]

theorem verticalOps_keys (km : KeyMap) (dy dz : ℚ) :
    ∀ op ∈ verticalOps km dy dz, op.key = km.up ∨ op.key = km.down := by
  unfold verticalOps
  split_ifs <;> simp [KeyOp.key]

theorem moveKnobOps_keys (km : KeyMap) (x y : ℚ) (s : State) :
    ∀ op ∈ moveKnobOps km x y s,
      op.key = km.left ∨ op.key = km.right ∨ op.key = km.up ∨ op.key = km.down := by
  intro op hop
  rcases List.mem_append.1 hop with h | h
  · rcases horizontalOps_keys km _ _ op h with h | h <;> simp [h]
  · rcases verticalOps_keys km _ _ op h with h | h <;> simp [h]

/-- The four directional keys after `moveKnobTo`, with the four labels
pairwise distinct and a dead zone that is not negative. -/
theorem moveKnobTo_mem (env : Env) (x y : ℚ) (s : State)
    (hr : 0 ≤ s.maxRadius)
    (hd : [env.km.left, env.km.right, env.km.up, env.km.down].Nodup) :
    (env.km.left ∈ (moveKnobTo env x y s).pressedKeys ↔
        x - s.centerX < -((25 / 100 : ℚ) * s.maxRadius)) ∧
      (env.km.right ∈ (moveKnobTo env x y s).pressedKeys ↔
        x - s.centerX > (25 / 100 : ℚ) * s.maxRadius) ∧
      (env.km.up ∈ (moveKnobTo env x y s).pressedKeys ↔
        y - s.centerY < -((25 / 100 : ℚ) * s.maxRadius)) ∧
      (env.km.down ∈ (moveKnobTo env x y s).pressedKeys ↔
        y - s.centerY > (25 / 100 : ℚ) * s.maxRadius) := by
  have hdz : 0 ≤ (25 / 100 : ℚ) * s.maxRadius := by positivity
  simp only [List.nodup_cons, List.mem_cons, List.mem_singleton, not_or, List.not_mem_nil,
    not_false_eq_true, List.nodup_nil, and_true] at hd
  obtain ⟨⟨hlr, hlu, hld⟩, ⟨hru, hrd⟩, hud⟩ := hd
  have hv := verticalOps_mem env.km (y - s.centerY) ((25 / 100 : ℚ) * s.maxRadius)
    (runOps (horizontalOps env.km (x - s.centerX) ((25 / 100 : ℚ) * s.maxRadius))
      (placeKnob env x y s)) hud hdz
  have hh := horizontalOps_mem env.km (x - s.centerX) ((25 / 100 : ℚ) * s.maxRadius)
    (placeKnob env x y s) hlr hdz
  have hmove : moveKnobTo env x y s =
      runOps (verticalOps env.km (y - s.centerY) ((25 / 100 : ℚ) * s.maxRadius))
        (runOps (horizontalOps env.km (x - s.centerX) ((25 / 100 : ℚ) * s.maxRadius))
          (placeKnob env x y s)) := by
    unfold moveKnobTo moveKnobOps
    exact runOps_append _ _ _
  rw [hmove]
  refine ⟨?_, ?_, hv.1, hv.2⟩
  · rw [runOps_mem_of_not_key _ _ _ (fun op hop => ?_)]
    · exact hh.1
    · rcases verticalOps_keys _ _ _ op hop with h | h <;> rw [h]
      · exact fun e => hlu e.symm
      · exact fun e => hld e.symm
  · rw [runOps_mem_of_not_key _ _ _ (fun op hop => ?_)]
    · exact hh.2
    · rcases verticalOps_keys _ _ _ op hop with h | h <;> rw [h]
      · exact fun e => hru e.symm
      · exact fun e => hrd e.symm

/-! ## Releasing a list of keys -/

/-- After releasing the keys of `ks`, a key is held exactly when it was held
and is not in `ks`. -/
theorem runOps_release_mem (ks : List Key) (s : State) (k : Key) :
    k ∈ (runOps (ks.map KeyOp.release) s).pressedKeys ↔ k ∈ s.pressedKeys ∧ k ∉ ks := by
  induction ks generalizing s with
  | nil => simp [runOps]
  | cons a ks ih =>
    simp only [List.map_cons, runOps, KeyOp.run, ih, releaseKeyOnce_pressedKeys,
      Finset.mem_erase, List.mem_cons, not_or]
    tauto

/-- Releasing the keys of `ks` emits `up` events only, one for each key of
`ks` that was held. -/
theorem runOps_release_log (ks : List Key) (s : State) :
    ∃ evs : List KeyEvent, (runOps (ks.map KeyOp.release) s).log = s.log ++ evs ∧
      (∀ ev ∈ evs, ev.type = EvType.up) ∧
      ∀ k : Key, (evs.filter (fun ev => ev.key = k)).length =
        if k ∈ ks ∧ k ∈ s.pressedKeys then 1 else 0 := by
  induction ks generalizing s with
  | nil => exact ⟨[], by simp [runOps], by simp, by simp⟩
  | cons a ks ih =>
    obtain ⟨evs, h1, h2, h3⟩ := ih (releaseKeyOnce a s)
    by_cases ha : a ∈ s.pressedKeys
    · refine ⟨{ time := s.now, key := a, type := EvType.up } :: evs, ?_, ?_, ?_⟩
      · simp only [List.map_cons, runOps, KeyOp.run, h1, releaseKeyOnce_log, if_pos ha,
          List.append_assoc, List.singleton_append]
      · intro ev hev
        rcases List.mem_cons.1 hev with h | h
        · rw [h]
        · exact h2 ev h
      · intro k
        by_cases hk : k = a
        · subst hk
          simp [List.filter_cons, h3, ha]
        · have hk2 : ¬ a = k := fun e => hk e.symm
          simp [List.filter_cons, h3, hk, hk2, Finset.mem_erase]
    · rw [releaseKeyOnce_of_not_mem ha] at h1 h3
      refine ⟨evs, by simpa [runOps, KeyOp.run, releaseKeyOnce_of_not_mem ha] using h1, h2, ?_⟩
      intro k
      rw [h3 k]
      by_cases hk : k = a
      · subst hk
        simp [ha]
      · simp [hk]

/-- An event that holds a contact with the owner's identity passes the loop
condition of `onJoyMove` / `onJoyEnd`. -/
theorem find_owner_isSome (e : JoyEvent) (o : Owner)
    (hc : ∃ c ∈ contacts e, ownerOf c = o) :
    ∃ t, (contacts e).find? (ownsContact (some o)) = some t := by
  obtain ⟨c, hc1, hc2⟩ := hc
  have hown : ownsContact (some o) c = true := by
    unfold ownsContact
    unfold ownerOf at hc2
    cases hi : c.identifier with
    | none => rw [hi] at hc2; simp [← hc2]
    | some i => rw [hi] at hc2; simp [← hc2]
  have h : ((contacts e).find? (ownsContact (some o))).isSome = true :=
    List.find?_isSome.2 ⟨c, hc1, hown⟩
  exact Option.isSome_iff_exists.1 h

/-! ## One key per axis -/

theorem AxisExclusive_of_iff (km : KeyMap) (P Q : Finset Key) (h : AxisExclusive km P)
    (hl : km.left ∈ Q ↔ km.left ∈ P) (hr : km.right ∈ Q ↔ km.right ∈ P)
    (hu : km.up ∈ Q ↔ km.up ∈ P) (hd : km.down ∈ Q ↔ km.down ∈ P) :
    AxisExclusive km Q := by
  unfold AxisExclusive at *
  rw [hl, hr, hu, hd]
  exact h

theorem AxisExclusive_of_subset (km : KeyMap) (P Q : Finset Key) (h : AxisExclusive km P)
    (hsub : Q ⊆ P) : AxisExclusive km Q :=
  ⟨fun hq => h.1 ⟨hsub hq.1, hsub hq.2⟩, fun hq => h.2 ⟨hsub hq.1, hsub hq.2⟩⟩

theorem horizontalOps_exclusive (km : KeyMap) (dx dz : ℚ) (s : State)
    (hne : km.left ≠ km.right) :
    ¬ (km.left ∈ (runOps (horizontalOps km dx dz) s).pressedKeys ∧
        km.right ∈ (runOps (horizontalOps km dx dz) s).pressedKeys) := by
  have hne2 : km.right ≠ km.left := fun h => hne h.symm
  unfold horizontalOps
  split_ifs <;>
    simp [runOps, KeyOp.run, Finset.mem_insert, Finset.mem_erase, hne, hne2]

theorem verticalOps_exclusive (km : KeyMap) (dy dz : ℚ) (s : State)
    (hne : km.up ≠ km.down) :
    ¬ (km.up ∈ (runOps (verticalOps km dy dz) s).pressedKeys ∧
        km.down ∈ (runOps (verticalOps km dy dz) s).pressedKeys) := by
  have hne2 : km.down ≠ km.up := fun h => hne h.symm
  unfold verticalOps
  split_ifs <;>
    simp [runOps, KeyOp.run, Finset.mem_insert, Finset.mem_erase, hne, hne2]

/-- Once `moveKnobTo` has returned, no axis has both keys held. -/
theorem moveKnobTo_exclusive (env : Env) (x y : ℚ) (s : State)
    (hd : [env.km.left, env.km.right, env.km.up, env.km.down].Nodup) :
    AxisExclusive env.km (moveKnobTo env x y s).pressedKeys := by
  simp only [List.nodup_cons, List.mem_cons, List.mem_singleton, not_or, List.not_mem_nil,
    not_false_eq_true, List.nodup_nil, and_true] at hd
  obtain ⟨⟨hlr, hlu, hld⟩, ⟨hru, hrd⟩, hud⟩ := hd
  have hmove : moveKnobTo env x y s =
      runOps (verticalOps env.km (y - s.centerY) ((25 / 100 : ℚ) * s.maxRadius))
        (runOps (horizontalOps env.km (x - s.centerX) ((25 / 100 : ℚ) * s.maxRadius))
          (placeKnob env x y s)) := by
    unfold moveKnobTo moveKnobOps
    exact runOps_append _ _ _
  rw [hmove]
  refine ⟨?_, verticalOps_exclusive _ _ _ _ hud⟩
  rw [runOps_mem_of_not_key _ _ env.km.left, runOps_mem_of_not_key _ _ env.km.right]
  · exact horizontalOps_exclusive _ _ _ _ hlr
  · intro op hop
    rcases verticalOps_keys _ _ _ op hop with h | h <;> rw [h]
    · exact fun e => hru e.symm
    · exact fun e => hrd e.symm
  · intro op hop
    rcases verticalOps_keys _ _ _ op hop with h | h <;> rw [h]
    · exact fun e => hlu e.symm
    · exact fun e => hld e.symm

theorem fireDue_subset (t : Nat) (tms : List Timer) (s : State) :
    (fireDue t tms s).pressedKeys ⊆ s.pressedKeys := by
  induction tms generalizing s with
  | nil => exact Finset.Subset.refl _
  | cons tm rest ih =>
    unfold fireDue
    split_ifs
    · refine (ih _).trans ?_
      simp only [fireTimer, releaseKeyOnce_pressedKeys]
      exact Finset.erase_subset _ _
    · exact Finset.Subset.refl _

theorem onJoyEnd_subset (env : Env) (e : JoyEvent) (s : State) :
    (onJoyEnd env e s).pressedKeys ⊆ s.pressedKeys := by
  unfold onJoyEnd
  split
  · intro k hk
    exact ((runOps_release_mem [env.km.left, env.km.right, env.km.up, env.km.down]
      { s with knobLeft := some 50, knobTop := some 50 } k).1 hk).1
  · exact Finset.Subset.refl _

/-- Every handler keeps the rule of one key per axis, when the eight labels of
the key mapping are pairwise distinct. -/
theorem step_exclusive (env : Env) (i : Input) (s : State)
    (hd : [env.km.left, env.km.right, env.km.up, env.km.down, env.km.melee,
      env.km.weapon1, env.km.weapon2, env.km.weapon3].Nodup)
    (h : AxisExclusive env.km s.pressedKeys) :
    AxisExclusive env.km (step env i s).pressedKeys := by
  have happ : ([env.km.left, env.km.right, env.km.up, env.km.down] ++
      [env.km.melee, env.km.weapon1, env.km.weapon2, env.km.weapon3]).Nodup := hd
  have hd4 : [env.km.left, env.km.right, env.km.up, env.km.down].Nodup :=
    (List.nodup_append.1 happ).1
  simp only [List.nodup_cons, List.mem_cons, List.mem_singleton, not_or, List.not_mem_nil,
    not_false_eq_true, List.nodup_nil, and_true] at hd
  obtain ⟨⟨-, -, -, hlm, hl1, hl2, hl3⟩, ⟨-, -, hrm, hr1, hr2, hr3⟩,
    ⟨-, hum, hu1, hu2, hu3⟩, ⟨hdm, hd1, hd2, hd3⟩, -⟩ := hd
  cases i with
  | resize rect => exact h
  | joyStart rect e => exact moveKnobTo_exclusive env _ _ _ hd4
  | joyMove e =>
    simp only [step, onJoyMove]
    split_ifs
    · exact h
    · split
      · exact moveKnobTo_exclusive env _ _ _ hd4
      · exact h
  | joyEnd e => exact AxisExclusive_of_subset _ _ _ h (onJoyEnd_subset env e s)
  | meleeStart =>
    refine AxisExclusive_of_iff _ _ _ h ?_ ?_ ?_ ?_ <;>
      simp [step, meleeStart, Finset.mem_insert, hlm, hrm, hum, hdm]
  | meleeEnd =>
    exact AxisExclusive_of_subset _ _ _ h
      (by simp only [step, meleeEnd, releaseKeyOnce_pressedKeys]; exact Finset.erase_subset _ _)
  | weapon1 =>
    refine AxisExclusive_of_iff _ _ _ h ?_ ?_ ?_ ?_ <;>
      simp [step, weaponPress, setTimeout, Finset.mem_insert, hl1, hr1, hu1, hd1]
  | weapon2 =>
    refine AxisExclusive_of_iff _ _ _ h ?_ ?_ ?_ ?_ <;>
      simp [step, weaponPress, setTimeout, Finset.mem_insert, hl2, hr2, hu2, hd2]
  | weapon3 =>
    refine AxisExclusive_of_iff _ _ _ h ?_ ?_ ?_ ?_ <;>
      simp [step, weaponPress, setTimeout, Finset.mem_insert, hl3, hr3, hu3, hd3]
  | wait dt =>
    exact AxisExclusive_of_subset _ _ _ h (fireDue_subset _ _ _)

theorem run_exclusive (env : Env) (inputs : List Input) (s : State)
    (hd : [env.km.left, env.km.right, env.km.up, env.km.down, env.km.melee,
      env.km.weapon1, env.km.weapon2, env.km.weapon3].Nodup)
    (h : AxisExclusive env.km s.pressedKeys) :
    AxisExclusive env.km (run env inputs s).pressedKeys := by
  induction inputs generalizing s with
  | nil => exact h
  | cons i is ih => exact ih _ (step_exclusive env i s hd h)

/-- With one key per axis, at most two directional keys are in the set. -/
theorem AxisExclusive_card (km : KeyMap) (P : Finset Key) (h : AxisExclusive km P) :
    (P.filter (fun k => k ∈ [km.left, km.right, km.up, km.down])).card ≤ 2 := by
  have hA : (P.filter (fun k => k = km.left ∨ k = km.right)).card ≤ 1 := by
    rw [Finset.card_le_one]
    intro a ha b hb
    simp only [Finset.mem_filter] at ha hb
    rcases ha with ⟨haP, rfl | rfl⟩ <;> rcases hb with ⟨hbP, rfl | rfl⟩
    · rfl
    · exact absurd ⟨haP, hbP⟩ h.1
    · exact absurd ⟨hbP, haP⟩ h.1
    · rfl
  have hB : (P.filter (fun k => k = km.up ∨ k = km.down)).card ≤ 1 := by
    rw [Finset.card_le_one]
    intro a ha b hb
    simp only [Finset.mem_filter] at ha hb
    rcases ha with ⟨haP, rfl | rfl⟩ <;> rcases hb with ⟨hbP, rfl | rfl⟩
    · rfl
    · exact absurd ⟨haP, hbP⟩ h.2
    · exact absurd ⟨hbP, haP⟩ h.2
    · rfl
  have hsub : P.filter (fun k => k ∈ [km.left, km.right, km.up, km.down]) ⊆
      P.filter (fun k => k = km.left ∨ k = km.right) ∪
        P.filter (fun k => k = km.up ∨ k = km.down) := by
    intro k hk
    simp only [Finset.mem_filter, List.mem_cons, List.mem_singleton, List.not_mem_nil,
      or_false, Finset.mem_union] at hk ⊢
    rcases hk with ⟨hP, h1 | h1 | h1 | h1⟩
    · exact Or.inl ⟨hP, Or.inl h1⟩
    · exact Or.inl ⟨hP, Or.inr h1⟩
    · exact Or.inr ⟨hP, Or.inl h1⟩
    · exact Or.inr ⟨hP, Or.inr h1⟩
  calc (P.filter (fun k => k ∈ [km.left, km.right, km.up, km.down])).card
      ≤ (P.filter (fun k => k = km.left ∨ k = km.right) ∪
          P.filter (fun k => k = km.up ∨ k = km.down)).card := Finset.card_le_card hsub
    _ ≤ (P.filter (fun k => k = km.left ∨ k = km.right)).card +
          (P.filter (fun k => k = km.up ∨ k = km.down)).card := Finset.card_union_le _ _
    _ ≤ 2 := by omega

/-! ## Contact matching -/

/-- When the owner is not the mouse sentinel and no contact of the event has
the owner's identity, the loop of `onJoyMove` / `onJoyEnd` finds no contact. -/
theorem find_owner_none (e : JoyEvent) (s : State)
    (hm : s.activeTouchId ≠ some Owner.mouse)
    (hn : ∀ c ∈ contacts e, s.activeTouchId ≠ some (ownerOf c)) :
    (contacts e).find? (ownsContact s.activeTouchId) = none := by
  rw [List.find?_eq_none]
  intro c hc
  have h1 := hn c hc
  unfold ownsContact
  unfold ownerOf at h1
  cases hi : c.identifier with
  | none => simp [hm]
  | some i => rw [hi] at h1; simp [hm, h1]

@[simp] theorem moveKnobTo_activeTouchId (env : Env) (x y : ℚ) (s : State) :
    (moveKnobTo env x y s).activeTouchId = s.activeTouchId := by
  simp [moveKnobTo]

/-! ## Timers -/

theorem mem_insertTimer (tm a : Timer) (l : List Timer) :
    a ∈ insertTimer tm l ↔ a = tm ∨ a ∈ l := by
  induction l with
  | nil => simp [insertTimer]
  | cons x xs ih =>
    unfold insertTimer
    split_ifs
    · simp only [List.mem_cons, ih]
      tauto
    · simp only [List.mem_cons]

/-- Timers whose key is not held run without any effect on set and log. -/
theorem fireDue_not_held (T : Nat) (k : Key) (tms : List Timer) (s : State)
    (hk : k ∉ s.pressedKeys) (hkey : ∀ tm ∈ tms, tm.key = k) :
    (fireDue T tms s).pressedKeys = s.pressedKeys ∧ (fireDue T tms s).log = s.log := by
  induction tms generalizing s with
  | nil => exact ⟨rfl, rfl⟩
  | cons tm rest ih =>
    unfold fireDue
    split_ifs
    · have hkey1 : tm.key = k := hkey tm (List.mem_cons_self _ _)
      have hstep : fireTimer tm rest s = { s with now := max s.now tm.due, timers := rest } := by
        unfold fireTimer
        exact releaseKeyOnce_of_not_mem (by rw [hkey1]; exact hk)
      rw [hstep]
      exact ih _ hk (fun t ht => hkey t (List.mem_cons_of_mem _ ht))
    · exact ⟨rfl, rfl⟩

/-- When every pending timer is due, none is pending afterwards. -/
theorem fireDue_timers (T : Nat) (tms : List Timer) (s : State)
    (hs : s.timers = tms) (hdue : ∀ tm ∈ tms, tm.due ≤ T) :
    (fireDue T tms s).timers = [] := by
  induction tms generalizing s with
  | nil => exact hs
  | cons tm rest ih =>
    unfold fireDue
    rw [if_pos (hdue tm (List.mem_cons_self _ _))]
    exact ih _ (by simp [fireTimer]) (fun t ht => hdue t (List.mem_cons_of_mem _ ht))

/-- The first tap on a released key with no timer pending. -/
theorem HoldInv_first (k : Key) (t1 T : Nat) (s : State)
    (hk : k ∉ s.pressedKeys) (htm : s.timers = []) (hnow : s.now ≤ t1) :
    HoldInv k t1 T s.pressedKeys
      (s.log ++ [{ time := t1, key := k, type := EvType.down }])
      (weaponPress k (advanceTo t1 s)) := by
  have hadv : advanceTo t1 s = { s with now := t1 } := by
    simp [advanceTo, htm, fireDue, Nat.max_eq_right hnow]
  rw [hadv]
  refine ⟨by simp [weaponPress, setTimeout], ?_, by simp [weaponPress, setTimeout], [], ?_, ?_⟩
  · simp [weaponPress, setTimeout, pressKeyOnce_log, hk]
  · simp [weaponPress, setTimeout, htm, insertTimer]
  · simp

/-- A further tap while the key is held and before the first release is due. -/
theorem HoldInv_tap (k : Key) (t1 T : Nat) (P0 : Finset Key) (L : List KeyEvent)
    (s : State) (t : Nat) (h : HoldInv k t1 T P0 L s)
    (hnow : s.now ≤ t) (hlt : t < t1 + 120) (ht1 : t1 ≤ t) (hT : t + 120 ≤ T) :
    HoldInv k t1 T P0 L (weaponPress k (advanceTo t s)) := by
  obtain ⟨hP, hL, -, rest, htm, hrest⟩ := h
  have hadv : advanceTo t s = { s with now := t } := by
    have hnd : ¬ (t1 + 120 ≤ t) := by omega
    simp [advanceTo, htm, fireDue, hnd, Nat.max_eq_right hnow]
  have hmem : k ∈ ({ s with now := t } : State).pressedKeys := by
    show k ∈ s.pressedKeys
    rw [hP]; exact Finset.mem_insert_self _ _
  rw [hadv]
  refine ⟨?_, ?_, ?_, insertTimer { due := t + 120, key := k } rest, ?_, ?_⟩
  · simp only [weaponPress, setTimeout, pressKeyOnce_of_mem hmem]
    exact hP
  · simp only [weaponPress, setTimeout, pressKeyOnce_of_mem hmem]
    exact hL
  · simp only [weaponPress, setTimeout, pressKeyOnce_of_mem hmem]
    exact hlt
  · have hle : t1 + 120 ≤ t + 120 := by omega
    simp only [weaponPress, setTimeout, pressKeyOnce_of_mem hmem]
    rw [htm]
    simp only [insertTimer, if_pos hle]
  · intro tm htmem
    rcases (mem_insertTimer _ _ _).1 htmem with h | h
    · subst h
      exact ⟨rfl, by simp only; omega, by simp only; omega⟩
    · exact hrest tm h

/-- Any number of further taps before the first release is due. -/
theorem HoldInv_taps (k : Key) (t1 T : Nat) (P0 : Finset Key) (L : List KeyEvent)
    (ts : List Nat) (s : State) (h : HoldInv k t1 T P0 L s)
    (hsorted : ts.Sorted (fun a b => a ≤ b))
    (hnow : ∀ t ∈ ts, s.now ≤ t) (hge : ∀ t ∈ ts, t1 ≤ t)
    (hlt : ∀ t ∈ ts, t < t1 + 120) (hT : ∀ t ∈ ts, t + 120 ≤ T) :
    HoldInv k t1 T P0 L (tapsAt k ts s) := by
  induction ts generalizing s with
  | nil => exact h
  | cons t ts ih =>
    have hmem := List.mem_cons_self t ts
    have hstep := HoldInv_tap k t1 T P0 L s t h (hnow t hmem) (hlt t hmem) (hge t hmem)
      (hT t hmem)
    have hnow2 : (weaponPress k (advanceTo t s)).now = t := by
      obtain ⟨-, -, -, rest, htm, -⟩ := h
      have hnd : ¬ (t1 + 120 ≤ t) := by have := hlt t hmem; omega
      simp [weaponPress, setTimeout, advanceTo, htm, fireDue, hnd,
        Nat.max_eq_right (hnow t hmem)]
    rw [List.sorted_cons] at hsorted
    refine ih _ hstep hsorted.2 ?_ (fun u hu => hge u (List.mem_cons_of_mem _ hu))
      (fun u hu => hlt u (List.mem_cons_of_mem _ hu))
      (fun u hu => hT u (List.mem_cons_of_mem _ hu))
    intro u hu
    rw [hnow2]
    exact hsorted.1 u hu

/-- Letting all pending releases run: the first one emits the `up`, the later
ones find the key released. -/
theorem HoldInv_drain (k : Key) (t1 T : Nat) (P0 : Finset Key) (L : List KeyEvent)
    (s : State) (h : HoldInv k t1 T P0 L s) (hk : k ∉ P0) (hT : t1 + 120 ≤ T) :
    (advanceTo T s).pressedKeys = P0 ∧
      (advanceTo T s).log = L ++ [{ time := t1 + 120, key := k, type := EvType.up }] ∧
      (advanceTo T s).timers = [] := by
  obtain ⟨hP, hL, hn, rest, htm, hrest⟩ := h
  have hmem : k ∈ s.pressedKeys := by rw [hP]; exact Finset.mem_insert_self _ _
  have hmax : max s.now (t1 + 120) = t1 + 120 := Nat.max_eq_right (by omega)
  have hf1 : (fireTimer { due := t1 + 120, key := k } rest s).pressedKeys = P0 := by
    simp [fireTimer, hP, Finset.erase_insert hk]
  have hf2 : (fireTimer { due := t1 + 120, key := k } rest s).log =
      L ++ [{ time := t1 + 120, key := k, type := EvType.up }] := by
    simp [fireTimer, releaseKeyOnce_log, hmem, hL, hmax]
  have hf3 : (fireTimer { due := t1 + 120, key := k } rest s).timers = rest := by
    simp [fireTimer]
  have hnot : k ∉ (fireTimer { due := t1 + 120, key := k } rest s).pressedKeys := by
    rw [hf1]; exact hk
  have hrun := fireDue_not_held T k rest _ hnot (fun tm h => (hrest tm h).1)
  have htim := fireDue_timers T rest _ hf3 (fun tm h => (hrest tm h).2.2)
  have hadv : fireDue T s.timers s =
      fireDue T rest (fireTimer { due := t1 + 120, key := k } rest s) := by
    rw [htm]
    simp only [fireDue, if_pos hT]
  refine ⟨?_, ?_, ?_⟩
  · show (fireDue T s.timers s).pressedKeys = P0
    rw [hadv, hrun.1, hf1]
  · show (fireDue T s.timers s).log = _
    rw [hadv, hrun.2, hf2]
  · show (fireDue T s.timers s).timers = []
    rw [hadv, htim]

/-! ## Keys a handler leaves alone -/

theorem KeepsKeys_refl (ks : List Key) (s : State) : KeepsKeys ks s s :=
  ⟨fun _ _ => Iff.rfl, [], by simp, by simp⟩

/-- `KeepsKeys` reads only the pressed-key sets and the logs of its states. -/
theorem KeepsKeys_of_eq (ks : List Key) (s s0 t t0 : State)
    (hP : s.pressedKeys = s0.pressedKeys) (hL : s.log = s0.log)
    (hP2 : t.pressedKeys = t0.pressedKeys) (hL2 : t.log = t0.log)
    (h : KeepsKeys ks s0 t0) : KeepsKeys ks s t := by
  unfold KeepsKeys at *
  rw [hP, hL, hP2, hL2]
  exact h

theorem KeepsKeys_press (ks : List Key) (k : Key) (s : State) (hk : k ∉ ks) :
    KeepsKeys ks s (pressKeyOnce k s) :=
  KeepsKeys_runOps ks [KeyOp.press k] s (by simpa [KeyOp.key] using hk)

theorem KeepsKeys_release (ks : List Key) (k : Key) (s : State) (hk : k ∉ ks) :
    KeepsKeys ks s (releaseKeyOnce k s) :=
  KeepsKeys_runOps ks [KeyOp.release k] s (by simpa [KeyOp.key] using hk)

theorem KeepsKeys_weaponPress (ks : List Key) (k : Key) (s : State) (hk : k ∉ ks) :
    KeepsKeys ks s (weaponPress k s) :=
  KeepsKeys_of_eq ks s s (weaponPress k s) (pressKeyOnce k s) rfl rfl rfl rfl
    (KeepsKeys_press ks k s hk)

theorem KeepsKeys_moveKnobTo (env : Env) (ks : List Key) (x y : ℚ) (s : State)
    (hks : ∀ k ∈ [env.km.left, env.km.right, env.km.up, env.km.down], k ∉ ks) :
    KeepsKeys ks s (moveKnobTo env x y s) := by
  have h : KeepsKeys ks (placeKnob env x y s) (moveKnobTo env x y s) := by
    unfold moveKnobTo
    refine KeepsKeys_runOps ks _ _ (fun op hop => ?_)
    apply hks
    rcases moveKnobOps_keys env.km x y s op hop with h | h | h | h <;> simp [h]
  exact KeepsKeys_of_eq ks s (placeKnob env x y s) _ _ rfl rfl rfl rfl h

theorem KeepsKeys_onJoyStart (env : Env) (ks : List Key) (rect : Rect) (e : JoyEvent)
    (s : State)
    (hks : ∀ k ∈ [env.km.left, env.km.right, env.km.up, env.km.down], k ∉ ks) :
    KeepsKeys ks s (onJoyStart env rect e s) := by
  unfold onJoyStart
  exact KeepsKeys_of_eq ks s _ _ _ rfl rfl rfl rfl
    (KeepsKeys_moveKnobTo env ks (firstContact e).clientX (firstContact e).clientY
      { updateBounds rect s with activeTouchId := some (ownerOf (firstContact e)) } hks)

theorem KeepsKeys_onJoyMove (env : Env) (ks : List Key) (e : JoyEvent) (s : State)
    (hks : ∀ k ∈ [env.km.left, env.km.right, env.km.up, env.km.down], k ∉ ks) :
    KeepsKeys ks s (onJoyMove env e s) := by
  unfold onJoyMove
  split_ifs
  · exact KeepsKeys_refl ks s
  · split
    · exact KeepsKeys_moveKnobTo env ks _ _ s hks
    · exact KeepsKeys_refl ks s

theorem KeepsKeys_onJoyEnd (env : Env) (ks : List Key) (e : JoyEvent) (s : State)
    (hks : ∀ k ∈ [env.km.left, env.km.right, env.km.up, env.km.down], k ∉ ks) :
    KeepsKeys ks s (onJoyEnd env e s) := by
  unfold onJoyEnd
  split
  · have h : KeepsKeys ks { s with knobLeft := some 50, knobTop := some 50 }
        (runOps (joyEndOps env.km) { s with knobLeft := some 50, knobTop := some 50 }) := by
      refine KeepsKeys_runOps ks _ _ (fun op hop => ?_)
      apply hks
      simp only [joyEndOps, List.mem_cons, List.mem_singleton, List.not_mem_nil,
        or_false] at hop
      rcases hop with h | h | h | h <;> simp [h, KeyOp.key]
    exact KeepsKeys_of_eq ks s _ _ _ rfl rfl rfl rfl h
  · exact KeepsKeys_refl ks s

@[simp] theorem weaponPress_activeTouchId (k : Key) (s : State) :
    (weaponPress k s).activeTouchId = s.activeTouchId := by
  simp [weaponPress, setTimeout]

/-! ## The claims -/

/-- C1: `pressKeyOnce(k)` emits exactly one `down` event for `k` when `k` is
not held and nothing when it is, and the pressed-key set becomes `S ∪ {k}`;
`releaseKeyOnce(k)` emits exactly one `up` event for `k` when `k` is held and
nothing when it is not, and the set becomes `S \ {k}`. Calling either twice in
a row gives the state of calling it once: the second call emits nothing. -/
theorem C1_press_release_contract (k : Key) (s : State) :
    (pressKeyOnce k s).log =
        (if k ∈ s.pressedKeys then s.log
         else s.log ++ [{ time := s.now, key := k, type := EvType.down }]) ∧
      (pressKeyOnce k s).pressedKeys = s.pressedKeys ∪ {k} ∧
      (releaseKeyOnce k s).log =
        (if k ∈ s.pressedKeys then s.log ++ [{ time := s.now, key := k, type := EvType.up }]
         else s.log) ∧
      (releaseKeyOnce k s).pressedKeys = s.pressedKeys \ {k} ∧
      pressKeyOnce k (pressKeyOnce k s) = pressKeyOnce k s ∧
      releaseKeyOnce k (releaseKeyOnce k s) = releaseKeyOnce k s := by
  refine ⟨pressKeyOnce_log k s, ?_, releaseKeyOnce_log k s, ?_, ?_, ?_⟩
  · rw [pressKeyOnce_pressedKeys, Finset.union_comm]; rfl
  · rw [releaseKeyOnce_pressedKeys, Finset.sdiff_singleton_eq_erase]
  · exact pressKeyOnce_of_mem (by simp)
  · exact releaseKeyOnce_of_not_mem (by simp)

/-- C2: from the empty pressed-key set and an empty log, after any sequence of
`pressKeyOnce` / `releaseKeyOnce` calls the events emitted for a key `k`
alternate strictly `down`, `up`, `down`, ... starting with `down`, and the
number of `down` events for `k` is the number of `up` events for `k` plus one
when `k` is in the pressed-key set, plus zero when it is not. -/
theorem C2_alternation (ops : List KeyOp) (k : Key) (s : State)
    (hset : s.pressedKeys = ∅) (hlog : s.log = []) :
    alternates EvType.down (typesFor k (runOps ops s).log) = true ∧
      countFor k EvType.down (runOps ops s).log =
        countFor k EvType.up (runOps ops s).log +
          (if k ∈ (runOps ops s).pressedKeys then 1 else 0) := by
  have h0 : KeyInv k s := by
    simp [KeyInv, hset, hlog, typesFor, countFor, alternates]
  have h := KeyInv_runOps k ops s h0
  exact ⟨alternates_of_append _ _ _ h.1, h.2⟩

/-- C2, at a concrete run: press, press again, release, press the key `a`
from the initial state. -/
theorem C2_alternation_witness :
    alternates EvType.down
        (typesFor "a"
          (runOps [KeyOp.press "a", KeyOp.press "a", KeyOp.release "a", KeyOp.press "a"]
            (init sampleRect)).log) = true ∧
      countFor "a" EvType.down
          (runOps [KeyOp.press "a", KeyOp.press "a", KeyOp.release "a", KeyOp.press "a"]
            (init sampleRect)).log =
        countFor "a" EvType.up
            (runOps [KeyOp.press "a", KeyOp.press "a", KeyOp.release "a", KeyOp.press "a"]
              (init sampleRect)).log +
          (if "a" ∈ (runOps [KeyOp.press "a", KeyOp.press "a", KeyOp.release "a",
              KeyOp.press "a"] (init sampleRect)).pressedKeys then 1 else 0) :=
  C2_alternation [KeyOp.press "a", KeyOp.press "a", KeyOp.release "a", KeyOp.press "a"] "a"
    (init sampleRect) rfl rfl

/-- C3: with the four directional labels pairwise distinct and
`maxRadius ≥ 0`, after `moveKnobTo(x, y)` the pressed-key set holds `left` iff
`dx < −deadZone`, `right` iff `dx > deadZone`, `up` iff `dy < −deadZone` and
`down` iff `dy > deadZone`, where `dx = x − centerX`, `dy = y − centerY` and
`deadZone = 0.25 · maxRadius`, whatever was held before. The comparison is
strict: at `|dx| = deadZone` both horizontal keys are released, at
`|dy| = deadZone` both vertical keys; at the centre no directional key is held;
at `dx = −0.5 · maxRadius`, `dy = 0` with `maxRadius > 0` exactly `left` is
held among the four. -/
theorem C3_moveKnobTo_directions (env : Env) (x y : ℚ) (s : State)
    (hr : 0 ≤ s.maxRadius)
    (hd : [env.km.left, env.km.right, env.km.up, env.km.down].Nodup) :
    ((env.km.left ∈ (moveKnobTo env x y s).pressedKeys ↔
          x - s.centerX < -((25 / 100 : ℚ) * s.maxRadius)) ∧
        (env.km.right ∈ (moveKnobTo env x y s).pressedKeys ↔
          x - s.centerX > (25 / 100 : ℚ) * s.maxRadius) ∧
        (env.km.up ∈ (moveKnobTo env x y s).pressedKeys ↔
          y - s.centerY < -((25 / 100 : ℚ) * s.maxRadius)) ∧
        (env.km.down ∈ (moveKnobTo env x y s).pressedKeys ↔
          y - s.centerY > (25 / 100 : ℚ) * s.maxRadius)) ∧
      (|x - s.centerX| = (25 / 100 : ℚ) * s.maxRadius →
        env.km.left ∉ (moveKnobTo env x y s).pressedKeys ∧
          env.km.right ∉ (moveKnobTo env x y s).pressedKeys) ∧
      (|y - s.centerY| = (25 / 100 : ℚ) * s.maxRadius →
        env.km.up ∉ (moveKnobTo env x y s).pressedKeys ∧
          env.km.down ∉ (moveKnobTo env x y s).pressedKeys) ∧
      (x - s.centerX = 0 ∧ y - s.centerY = 0 →
        env.km.left ∉ (moveKnobTo env x y s).pressedKeys ∧
          env.km.right ∉ (moveKnobTo env x y s).pressedKeys ∧
          env.km.up ∉ (moveKnobTo env x y s).pressedKeys ∧
          env.km.down ∉ (moveKnobTo env x y s).pressedKeys) ∧
      (x - s.centerX = -((1 / 2 : ℚ) * s.maxRadius) ∧ y - s.centerY = 0 ∧ 0 < s.maxRadius →
        env.km.left ∈ (moveKnobTo env x y s).pressedKeys ∧
          env.km.right ∉ (moveKnobTo env x y s).pressedKeys ∧
          env.km.up ∉ (moveKnobTo env x y s).pressedKeys ∧
          env.km.down ∉ (moveKnobTo env x y s).pressedKeys) := by
  obtain ⟨hl, hrt, hu, hdn⟩ := moveKnobTo_mem env x y s hr hd
  refine ⟨⟨hl, hrt, hu, hdn⟩, ?_, ?_, ?_, ?_⟩
  · intro h
    have h2 := abs_le.1 (le_of_eq h)
    rw [hl, hrt]
    exact ⟨by linarith [h2.1], by linarith [h2.2]⟩
  · intro h
    have h2 := abs_le.1 (le_of_eq h)
    rw [hu, hdn]
    exact ⟨by linarith [h2.1], by linarith [h2.2]⟩
  · rintro ⟨h1, h2⟩
    rw [hl, hrt, hu, hdn, h1, h2]
    refine ⟨?_, ?_, ?_, ?_⟩ <;> nlinarith
  · rintro ⟨h1, h2, h3⟩
    rw [hl, hrt, hu, hdn, h1, h2]
    refine ⟨?_, ?_, ?_, ?_⟩ <;> linarith

/-- C3, at a concrete input: the default key mapping, the joystick of
`sampleRect` (centre (50, 50), radius 50), nothing held, contact at (25, 50),
that is `dx = −0.5 · maxRadius`, `dy = 0`: exactly `a` (left) is held. -/
theorem C3_moveKnobTo_directions_witness :
    "a" ∈ (moveKnobTo sampleEnv 25 50 (init sampleRect)).pressedKeys ∧
      "d" ∉ (moveKnobTo sampleEnv 25 50 (init sampleRect)).pressedKeys ∧
      "w" ∉ (moveKnobTo sampleEnv 25 50 (init sampleRect)).pressedKeys ∧
      "s" ∉ (moveKnobTo sampleEnv 25 50 (init sampleRect)).pressedKeys :=
  (C3_moveKnobTo_directions sampleEnv 25 50 (init sampleRect)
    (by norm_num [init, updateBounds, sampleRect])
    (by decide)).2.2.2.2
    (by norm_num [init, updateBounds, sampleRect])

/-- C4: in a state where the joystick is owned by a contact, whatever keys are
held, `onJoyEnd` with an event that contains the owning contact leaves none of
`left`, `right`, `up`, `down` in the pressed-key set and sets the owner to
none; the events emitted during the call are all `up` events, exactly one for
each directional key that was held before the call, and none for any other
key. -/
theorem C4_onJoyEnd_releases_all (env : Env) (e : JoyEvent) (s : State) (o : Owner)
    (ho : s.activeTouchId = some o)
    (hc : ∃ c ∈ contacts e, ownerOf c = o) :
    env.km.left ∉ (onJoyEnd env e s).pressedKeys ∧
      env.km.right ∉ (onJoyEnd env e s).pressedKeys ∧
      env.km.up ∉ (onJoyEnd env e s).pressedKeys ∧
      env.km.down ∉ (onJoyEnd env e s).pressedKeys ∧
      (onJoyEnd env e s).activeTouchId = none ∧
      ∃ evs : List KeyEvent, (onJoyEnd env e s).log = s.log ++ evs ∧
        (∀ ev ∈ evs, ev.type = EvType.up) ∧
        ∀ k : Key, (evs.filter (fun ev => ev.key = k)).length =
          if k ∈ [env.km.left, env.km.right, env.km.up, env.km.down] ∧ k ∈ s.pressedKeys
          then 1 else 0 := by
  obtain ⟨t, ht⟩ := find_owner_isSome e o hc
  have hend : onJoyEnd env e s =
      { runOps ([env.km.left, env.km.right, env.km.up, env.km.down].map KeyOp.release)
          { s with knobLeft := some 50, knobTop := some 50 } with activeTouchId := none } := by
    simp only [onJoyEnd, ho, ht, joyEndOps, List.map_cons, List.map_nil]
  rw [hend]
  have hmem := runOps_release_mem [env.km.left, env.km.right, env.km.up, env.km.down]
    { s with knobLeft := some 50, knobTop := some 50 }
  refine ⟨?_, ?_, ?_, ?_, rfl, ?_⟩
  · exact fun h => ((hmem _).1 h).2 (by simp)
  · exact fun h => ((hmem _).1 h).2 (by simp)
  · exact fun h => ((hmem _).1 h).2 (by simp)
  · exact fun h => ((hmem _).1 h).2 (by simp)
  · exact runOps_release_log [env.km.left, env.km.right, env.km.up, env.km.down]
      { s with knobLeft := some 50, knobTop := some 50 }

/-- C4, at a concrete input: a touch lands on the left edge of the joystick
(the key `a` goes down) and lifts with no move in between; the lift emits one
`up` for `a` and nothing else, and no directional key stays held. -/
theorem C4_onJoyEnd_releases_all_witness :
    "a" ∈ (onJoyStart sampleEnv sampleRect (touchEvent 7 0 50) (init sampleRect)).pressedKeys ∧
      "a" ∉ (onJoyEnd sampleEnv (touchEvent 7 0 50)
        (onJoyStart sampleEnv sampleRect (touchEvent 7 0 50) (init sampleRect))).pressedKeys ∧
      (onJoyEnd sampleEnv (touchEvent 7 0 50)
        (onJoyStart sampleEnv sampleRect (touchEvent 7 0 50) (init sampleRect))).activeTouchId
        = none := by
  have hs : (onJoyStart sampleEnv sampleRect (touchEvent 7 0 50)
      (init sampleRect)).activeTouchId = some (Owner.touch 7) := by
    simp [onJoyStart, moveKnobTo, firstContact, touchEvent, ownerOf]
  have h := C4_onJoyEnd_releases_all sampleEnv (touchEvent 7 0 50)
    (onJoyStart sampleEnv sampleRect (touchEvent 7 0 50) (init sampleRect)) (Owner.touch 7) hs
    ⟨{ identifier := some 7, clientX := 0, clientY := 50 }, by simp [contacts, touchEvent],
      rfl⟩
  refine ⟨?_, h.1, h.2.2.2.2.1⟩
  have hm := (moveKnobTo_mem sampleEnv 0 50
    { updateBounds sampleRect (init sampleRect) with activeTouchId := some (Owner.touch 7) }
    (by norm_num [init, updateBounds, sampleRect]) (by decide)).1
  have hx : (0 : ℚ) - (sampleRect.left + sampleRect.width / 2) <
      -((25 / 100 : ℚ) * (min sampleRect.width sampleRect.height / 2)) := by
    norm_num [sampleRect]
  exact hm.2 hx

/-- C5 as stated fails inside `moveKnobTo`: a touch holds the joystick at its
right edge (`d` held), then moves to the left edge. The handler first calls
`pressKeyOnce(left)` and only then `releaseKeyOnce(right)`, so the state after
its first tracker call holds both `a` and `d`; the emitted events are
`down d`, `down a`, `up d` in this order. -/
theorem C5_counterexample :
    (moveKnobStates sampleEnv 0 50
        (run sampleEnv [Input.joyStart sampleRect (touchEvent 1 100 50)]
          (init sampleRect))).map
        (fun m => decide (KEYMAP.left ∈ m.pressedKeys ∧ KEYMAP.right ∈ m.pressedKeys))
      = [true, false, false, false] ∧
    (run sampleEnv [Input.joyStart sampleRect (touchEvent 1 100 50),
        Input.joyMove (touchEvent 1 0 50)] (init sampleRect)).log
      = [{ time := 0, key := "d", type := EvType.down },
         { time := 0, key := "a", type := EvType.down },
         { time := 0, key := "d", type := EvType.up }] := by
  decide!

/-- C5, amended: starting from the initial state with the default key mapping,
in every state reached once a handler has returned, after any sequence of
joystick start/move/end events, resizes, melee and weapon button events and
timer runs, the pressed-key set never holds both `left` and `right` nor both
`up` and `down`, so at most two directional keys are held. -/
theorem C5_axis_exclusive_between_handlers (sqrt : ℚ → ℚ) (rect : Rect)
    (inputs : List Input) :
    ¬ (KEYMAP.left ∈ (run { km := KEYMAP, sqrt := sqrt } inputs (init rect)).pressedKeys ∧
        KEYMAP.right ∈ (run { km := KEYMAP, sqrt := sqrt } inputs (init rect)).pressedKeys) ∧
      ¬ (KEYMAP.up ∈ (run { km := KEYMAP, sqrt := sqrt } inputs (init rect)).pressedKeys ∧
        KEYMAP.down ∈ (run { km := KEYMAP, sqrt := sqrt } inputs (init rect)).pressedKeys) ∧
      ((run { km := KEYMAP, sqrt := sqrt } inputs (init rect)).pressedKeys.filter
        (fun k => k ∈ [KEYMAP.left, KEYMAP.right, KEYMAP.up, KEYMAP.down])).card ≤ 2 := by
  have h0 : AxisExclusive KEYMAP (init rect).pressedKeys := by
    simp [AxisExclusive, init, updateBounds]
  have hd : [KEYMAP.left, KEYMAP.right, KEYMAP.up, KEYMAP.down, KEYMAP.melee,
      KEYMAP.weapon1, KEYMAP.weapon2, KEYMAP.weapon3].Nodup := by decide
  have h := run_exclusive { km := KEYMAP, sqrt := sqrt } inputs (init rect) hd h0
  exact ⟨h.1, h.2, AxisExclusive_card KEYMAP _ h⟩

/-- C6 as stated fails: touch 1 owns the joystick (contact at the centre, no
key held); a contact-start of touch 2 at the left edge makes touch 2 the owner
and puts `a` into the pressed-key set. -/
theorem C6_counterexample :
    (onJoyStart sampleEnv sampleRect (touchEvent 1 50 50) (init sampleRect)).activeTouchId
        = some (Owner.touch 1) ∧
      (onJoyStart sampleEnv sampleRect (touchEvent 1 50 50) (init sampleRect)).pressedKeys
        = ∅ ∧
      (onJoyStart sampleEnv sampleRect (touchEvent 2 0 50)
        (onJoyStart sampleEnv sampleRect (touchEvent 1 50 50) (init sampleRect))).activeTouchId
        = some (Owner.touch 2) ∧
      (onJoyStart sampleEnv sampleRect (touchEvent 2 0 50)
        (onJoyStart sampleEnv sampleRect (touchEvent 1 50 50) (init sampleRect))).pressedKeys
        = {"a"} := by
  decide!

/-- C6, amended (the latest contact-start wins): in every state, owned or
not, `onJoyStart` makes the first changed contact of the event the owner (the
mouse sentinel when that contact has no identifier) and sets the directional
keys from that contact's position against the freshly read bounds: with the
four directional labels pairwise distinct and a rectangle of non-negative
width and height, `left` is held iff `dx < −deadZone`, `right` iff
`dx > deadZone`, `up` iff `dy < −deadZone`, `down` iff `dy > deadZone`. -/
theorem C6_onJoyStart_takes_ownership (env : Env) (rect : Rect) (e : JoyEvent) (s : State)
    (hw : 0 ≤ rect.width) (hh : 0 ≤ rect.height)
    (hd : [env.km.left, env.km.right, env.km.up, env.km.down].Nodup) :
    (onJoyStart env rect e s).activeTouchId = some (ownerOf (firstContact e)) ∧
      (env.km.left ∈ (onJoyStart env rect e s).pressedKeys ↔
        (firstContact e).clientX - (rect.left + rect.width / 2) <
          -((25 / 100 : ℚ) * (min rect.width rect.height / 2))) ∧
      (env.km.right ∈ (onJoyStart env rect e s).pressedKeys ↔
        (firstContact e).clientX - (rect.left + rect.width / 2) >
          (25 / 100 : ℚ) * (min rect.width rect.height / 2)) ∧
      (env.km.up ∈ (onJoyStart env rect e s).pressedKeys ↔
        (firstContact e).clientY - (rect.top + rect.height / 2) <
          -((25 / 100 : ℚ) * (min rect.width rect.height / 2))) ∧
      (env.km.down ∈ (onJoyStart env rect e s).pressedKeys ↔
        (firstContact e).clientY - (rect.top + rect.height / 2) >
          (25 / 100 : ℚ) * (min rect.width rect.height / 2)) := by
  have hr : 0 ≤ min rect.width rect.height / 2 := by
    have := le_min hw hh
    linarith
  refine ⟨by simp [onJoyStart], ?_⟩
  exact moveKnobTo_mem env (firstContact e).clientX (firstContact e).clientY
    { updateBounds rect s with activeTouchId := some (ownerOf (firstContact e)) } hr hd

/-- C6 amended, at a concrete input: touch 1 owns the joystick and touch 2
starts at the left edge; touch 2 becomes the owner. -/
theorem C6_onJoyStart_takes_ownership_witness :
    (onJoyStart sampleEnv sampleRect (touchEvent 2 0 50)
      (onJoyStart sampleEnv sampleRect (touchEvent 1 50 50) (init sampleRect))).activeTouchId
      = some (ownerOf (firstContact (touchEvent 2 0 50))) :=
  (C6_onJoyStart_takes_ownership sampleEnv sampleRect (touchEvent 2 0 50)
    (onJoyStart sampleEnv sampleRect (touchEvent 1 50 50) (init sampleRect))
    (by norm_num [sampleRect]) (by norm_num [sampleRect]) (by decide)).1

/-- C7 as stated fails when the owner is the mouse sentinel: after a mouse
press on the joystick centre, a touch event whose only contact has the
identifier 5 (not the owner's identity) at the right edge is accepted by
`onJoyMove`, which presses `d`, and by `onJoyEnd`, which clears the owner. -/
theorem C7_counterexample :
    (onJoyStart sampleEnv sampleRect (mouseEvent 50 50) (init sampleRect)).activeTouchId
        = some Owner.mouse ∧
      (∀ c ∈ contacts (touchEvent 5 100 50), some (ownerOf c) ≠
        (onJoyStart sampleEnv sampleRect (mouseEvent 50 50) (init sampleRect)).activeTouchId) ∧
      (onJoyStart sampleEnv sampleRect (mouseEvent 50 50) (init sampleRect)).pressedKeys = ∅ ∧
      (onJoyMove sampleEnv (touchEvent 5 100 50)
        (onJoyStart sampleEnv sampleRect (mouseEvent 50 50) (init sampleRect))).pressedKeys
        = {"d"} ∧
      (onJoyMove sampleEnv (touchEvent 5 100 50)
        (onJoyStart sampleEnv sampleRect (mouseEvent 50 50) (init sampleRect))).log
        = [{ time := 0, key := "d", type := EvType.down }] ∧
      (onJoyEnd sampleEnv (touchEvent 5 100 50)
        (onJoyStart sampleEnv sampleRect (mouseEvent 50 50) (init sampleRect))).activeTouchId
        = none := by
  decide!

/-- C7, amended: in every state whose owner is not the mouse sentinel (idle,
or owned by a touch) and for every move or end/cancel event in which no
contact has the owner's identity, `onJoyMove` and `onJoyEnd` return the state
unchanged: pressed-key set, owner and log are as before, so no key event is
emitted. -/
theorem C7_unmatched_contacts_ignored (env : Env) (e : JoyEvent) (s : State)
    (hm : s.activeTouchId ≠ some Owner.mouse)
    (hn : ∀ c ∈ contacts e, s.activeTouchId ≠ some (ownerOf c)) :
    onJoyMove env e s = s ∧ onJoyEnd env e s = s := by
  have hf := find_owner_none e s hm hn
  constructor
  · unfold onJoyMove
    split_ifs
    · rfl
    · rw [hf]
  · unfold onJoyEnd
    rw [hf]

/-- C7 amended, at a concrete input: touch 1 holds the joystick at its right
edge and a move of touch 2 arrives; nothing changes. -/
theorem C7_unmatched_contacts_ignored_witness :
    onJoyMove sampleEnv (touchEvent 2 0 50)
        (onJoyStart sampleEnv sampleRect (touchEvent 1 100 50) (init sampleRect))
      = onJoyStart sampleEnv sampleRect (touchEvent 1 100 50) (init sampleRect) ∧
    onJoyEnd sampleEnv (touchEvent 2 0 50)
        (onJoyStart sampleEnv sampleRect (touchEvent 1 100 50) (init sampleRect))
      = onJoyStart sampleEnv sampleRect (touchEvent 1 100 50) (init sampleRect) :=
  C7_unmatched_contacts_ignored sampleEnv (touchEvent 2 0 50)
    (onJoyStart sampleEnv sampleRect (touchEvent 1 100 50) (init sampleRect))
    (by simp [onJoyStart, firstContact, touchEvent, ownerOf])
    (by simp [onJoyStart, firstContact, touchEvent, ownerOf, contacts])

/-- Rapid taps when no timer is pending: for a weapon key `k` that is not
held, in a state with an empty timer queue, and taps at times
`t1 ≤ t2 ≤ ... ≤ tn` with `tn < t1 + 120`: after the taps exactly one event has
been emitted, the `down` for `k` at `t1`, and once all scheduled releases have
run (at any time `T` with `tn + 120 ≤ T`) exactly one more, the `up` for `k`
at `t1 + 120`; no timer is left and the pressed-key set is as before. This is
the part of the double-tap scenario that the code meets; with a release of
`k` still pending from earlier taps it does not, see
`C9_double_tap_after_stale_release`. -/
theorem rapid_taps_without_pending_release (k : Key) (s : State) (t1 : Nat) (rest : List Nat) (T : Nat)
    (hk : k ∉ s.pressedKeys) (htm : s.timers = []) (hnow : s.now ≤ t1)
    (hsorted : (t1 :: rest).Sorted (fun a b => a ≤ b))
    (hlt : ∀ t ∈ rest, t < t1 + 120)
    (hT : ∀ t ∈ t1 :: rest, t + 120 ≤ T) :
    (tapsAt k (t1 :: rest) s).log =
        s.log ++ [{ time := t1, key := k, type := EvType.down }] ∧
      k ∈ (tapsAt k (t1 :: rest) s).pressedKeys ∧
      (advanceTo T (tapsAt k (t1 :: rest) s)).log =
        s.log ++ [{ time := t1, key := k, type := EvType.down },
                  { time := t1 + 120, key := k, type := EvType.up }] ∧
      (advanceTo T (tapsAt k (t1 :: rest) s)).timers = [] ∧
      (advanceTo T (tapsAt k (t1 :: rest) s)).pressedKeys = s.pressedKeys := by
  have h1 := HoldInv_first k t1 T s hk htm hnow
  have hnow1 : (weaponPress k (advanceTo t1 s)).now = t1 := by
    simp [weaponPress, setTimeout, advanceTo, htm, fireDue, hnow]
  rw [List.sorted_cons] at hsorted
  have h2 := HoldInv_taps k t1 T s.pressedKeys _ rest _ h1 hsorted.2
    (fun t ht => by rw [hnow1]; exact hsorted.1 t ht) hsorted.1 hlt
    (fun t ht => hT t (List.mem_cons_of_mem _ ht))
  have h3 := HoldInv_drain k t1 T s.pressedKeys _ _ h2 hk (hT t1 (List.mem_cons_self _ _))
  have htaps : tapsAt k (t1 :: rest) s = tapsAt k rest (weaponPress k (advanceTo t1 s)) := rfl
  rw [htaps]
  refine ⟨h2.2.1, ?_, ?_, h3.2.2, h3.1⟩
  · rw [h2.1]; exact Finset.mem_insert_self _ _
  · rw [h3.2.1, List.append_assoc]; rfl

/-- Rapid taps with no timer pending, at a concrete input: a double tap on
weapon key `1` at times 0 and 50 from the initial state, read at time 500. -/
theorem rapid_taps_without_pending_release_at_0_50 :
    (advanceTo 500 (tapsAt "1" [0, 50] (init sampleRect))).log =
      (init sampleRect).log ++ [{ time := 0, key := "1", type := EvType.down },
        { time := 0 + 120, key := "1", type := EvType.up }] :=
  (rapid_taps_without_pending_release "1" (init sampleRect) 0 [50] 500 (by decide) rfl
    (by decide) (by decide) (by decide) (by decide)).2.2.1

/-- C9 fails on the code when a release of the key is still pending. Taps on
weapon key `1` at 0 and 100, read at 125: the key was released at 120 (it is
not held) and the release scheduled by the tap at 100 is still due at 220.
The double tap at 130 and 230 (230 < 130 + 120) then emits two `down` and two
`up` events for the key: `down` at 130, `up` at 220 (90 after the first
`down`, by the pending release), `down` at 230, `up` at 250. -/
theorem C9_double_tap_after_stale_release :
    "1" ∉ (advanceTo 125 (tapsAt "1" [0, 100] (init sampleRect))).pressedKeys ∧
      (advanceTo 125 (tapsAt "1" [0, 100] (init sampleRect))).timers
        = [{ due := 220, key := "1" }] ∧
      (advanceTo 125 (tapsAt "1" [0, 100] (init sampleRect))).log
        = [{ time := 0, key := "1", type := EvType.down },
           { time := 120, key := "1", type := EvType.up }] ∧
      (advanceTo 500 (tapsAt "1" [130, 230]
          (advanceTo 125 (tapsAt "1" [0, 100] (init sampleRect))))).log
        = [{ time := 0, key := "1", type := EvType.down },
           { time := 120, key := "1", type := EvType.up },
           { time := 130, key := "1", type := EvType.down },
           { time := 220, key := "1", type := EvType.up },
           { time := 230, key := "1", type := EvType.down },
           { time := 250, key := "1", type := EvType.up }] := by
  decide

/-- C10 fails on the code at the taps 0, 100, 130 on weapon key `1`: the
release scheduled by the tap at 100 is still pending when the key is pressed
again at 130, runs at 220 and releases the key 90 time units after that
`down`, not 120. -/
theorem C10_stale_release :
    (advanceTo 500 (tapsAt "1" [0, 100, 130] (init sampleRect))).log =
      [{ time := 0, key := "1", type := EvType.down },
       { time := 120, key := "1", type := EvType.up },
       { time := 130, key := "1", type := EvType.down },
       { time := 220, key := "1", type := EvType.up }] := by
  decide

/-- C8: with the eight labels of the key mapping pairwise distinct, in every
state `weaponPress(k)` for a weapon key `k`, its deferred `releaseKeyOnce(k)`
(also as run from the timer queue) and the melee press and release handlers
keep the four directional keys (same membership in the pressed-key set, no
event for them) and the joystick owner; and `onJoyStart`, `onJoyMove`,
`moveKnobTo` and `onJoyEnd` keep `melee`, `weapon1`, `weapon2` and `weapon3`
(same membership, no event for them). -/
theorem C8_joystick_and_buttons_independent (env : Env) (s : State)
    (hd : [env.km.left, env.km.right, env.km.up, env.km.down, env.km.melee,
      env.km.weapon1, env.km.weapon2, env.km.weapon3].Nodup) :
    (∀ k ∈ [env.km.weapon1, env.km.weapon2, env.km.weapon3],
        KeepsKeys [env.km.left, env.km.right, env.km.up, env.km.down] s (weaponPress k s) ∧
          (weaponPress k s).activeTouchId = s.activeTouchId ∧
          KeepsKeys [env.km.left, env.km.right, env.km.up, env.km.down] s
            (releaseKeyOnce k s) ∧
          (releaseKeyOnce k s).activeTouchId = s.activeTouchId ∧
          ∀ (due : Nat) (rest : List Timer),
            KeepsKeys [env.km.left, env.km.right, env.km.up, env.km.down] s
              (fireTimer { due := due, key := k } rest s) ∧
            (fireTimer { due := due, key := k } rest s).activeTouchId = s.activeTouchId) ∧
      (KeepsKeys [env.km.left, env.km.right, env.km.up, env.km.down] s (meleeStart env s) ∧
        (meleeStart env s).activeTouchId = s.activeTouchId ∧
        KeepsKeys [env.km.left, env.km.right, env.km.up, env.km.down] s (meleeEnd env s) ∧
        (meleeEnd env s).activeTouchId = s.activeTouchId) ∧
      (∀ (rect : Rect) (e : JoyEvent),
        KeepsKeys [env.km.melee, env.km.weapon1, env.km.weapon2, env.km.weapon3] s
          (onJoyStart env rect e s)) ∧
      (∀ e : JoyEvent,
        KeepsKeys [env.km.melee, env.km.weapon1, env.km.weapon2, env.km.weapon3] s
          (onJoyMove env e s)) ∧
      (∀ x y : ℚ,
        KeepsKeys [env.km.melee, env.km.weapon1, env.km.weapon2, env.km.weapon3] s
          (moveKnobTo env x y s)) ∧
      (∀ e : JoyEvent,
        KeepsKeys [env.km.melee, env.km.weapon1, env.km.weapon2, env.km.weapon3] s
          (onJoyEnd env e s)) := by
  have happ : ([env.km.left, env.km.right, env.km.up, env.km.down] ++
      [env.km.melee, env.km.weapon1, env.km.weapon2, env.km.weapon3]).Nodup := hd
  have hdis := (List.nodup_append.1 happ).2.2
  have hbtn : ∀ k ∈ [env.km.melee, env.km.weapon1, env.km.weapon2, env.km.weapon3],
      k ∉ [env.km.left, env.km.right, env.km.up, env.km.down] :=
    fun k hk hk2 => hdis hk2 hk
  have hdir : ∀ k ∈ [env.km.left, env.km.right, env.km.up, env.km.down],
      k ∉ [env.km.melee, env.km.weapon1, env.km.weapon2, env.km.weapon3] :=
    fun k hk hk2 => hdis hk hk2
  refine ⟨?_, ⟨?_, ?_, ?_, ?_⟩, ?_, ?_, ?_, ?_⟩
  · intro k hk
    have hk2 : k ∉ [env.km.left, env.km.right, env.km.up, env.km.down] :=
      hbtn k (List.mem_cons_of_mem _ hk)
    refine ⟨KeepsKeys_weaponPress _ k s hk2, weaponPress_activeTouchId k s,
      KeepsKeys_release _ k s hk2, releaseKeyOnce_activeTouchId k s, fun due rest => ⟨?_, ?_⟩⟩
    · exact KeepsKeys_of_eq _ s { s with now := max s.now due, timers := rest } _ _
        rfl rfl rfl rfl (KeepsKeys_release _ k _ hk2)
    · simp [fireTimer]
  · exact KeepsKeys_press _ _ s (hbtn _ (List.mem_cons_self _ _))
  · exact pressKeyOnce_activeTouchId _ s
  · exact KeepsKeys_release _ _ s (hbtn _ (List.mem_cons_self _ _))
  · exact releaseKeyOnce_activeTouchId _ s
  · exact fun rect e => KeepsKeys_onJoyStart env _ rect e s hdir
  · exact fun e => KeepsKeys_onJoyMove env _ e s hdir
  · exact fun x y => KeepsKeys_moveKnobTo env _ x y s hdir
  · exact fun e => KeepsKeys_onJoyEnd env _ e s hdir

/-- C8, at a concrete input: with the default key mapping and a touch holding
the joystick at its right edge, a tap on weapon button 1 leaves the owner as
it is. -/
theorem C8_joystick_and_buttons_independent_witness :
    (weaponPress sampleEnv.km.weapon1
        (onJoyStart sampleEnv sampleRect (touchEvent 1 100 50) (init sampleRect))).activeTouchId
      = (onJoyStart sampleEnv sampleRect (touchEvent 1 100 50)
          (init sampleRect)).activeTouchId :=
  ((C8_joystick_and_buttons_independent sampleEnv
    (onJoyStart sampleEnv sampleRect (touchEvent 1 100 50) (init sampleRect))
    (by decide)).1 sampleEnv.km.weapon1 (List.mem_cons_self _ _)).2.1

end MobileControls
